import Mathlib

set_option maxRecDepth 100000

/-!
# Verification of the `code-analyzer` detectors and analyzer pipeline

Shallow embedding of the Go sources of `pixelvide/code-analyzer`:
the conflict-marker detector, the JS/TS and HTML commented-code detectors,
the PHP commented-function detector, the Laravel catch-block visitor, and
the per-analyzer sort/truncate pipeline (including a faithful port of the
Go standard library's `sort.Slice` algorithm, which the analyzers use).

Strings from the Go source are modelled as `List Char`; Go's byte lengths
and byte indexing coincide with character counts on the ASCII inputs used
in all concrete statements below.  `models.Issue` is modelled by its
`line` and `severity` fields; the human-readable `description` strings
(built with `fmt.Sprintf`) and the `path` field (filled in later by the
owning analyzer, never by a detector) are elided because no claim
mentions their contents.
-/

namespace CodeAnalyzer

abbrev Str := List Char

/-- Severities emitted by the analyzers. -/
inductive Severity where
  | critical
  | major
  | medium
  | minor
deriving DecidableEq, Repr

/-- `models.Issue`, reduced to the two fields the claims speak about. -/
structure Issue where
  line : Nat
  severity : Severity
deriving DecidableEq, Repr

/-- The character set trimmed by Go's `strings.TrimSpace`
(`unicode.IsSpace`: space, \t, \n, \v, \f, \r, U+0085, U+00A0). -/
def isGoSpace (c : Char) : Bool :=
  c == ' ' || c == '\t' || c == '\n' || c == Char.ofNat 0x0B ||
  c == Char.ofNat 0x0C || c == '\r' || c == Char.ofNat 0x85 || c == Char.ofNat 0xA0

/-- `strings.TrimSpace`. -/
def goTrimSpace (s : Str) : Str :=
  ((s.dropWhile isGoSpace).reverse.dropWhile isGoSpace).reverse

/-- `strings.Contains s sub`. -/
def containsSub (s sub : Str) : Bool :=
  (List.range (s.length + 1)).any (fun i => (s.drop i).take sub.length == sub)

/-! ## Conflict-marker detector (`analyzers/conflicts/conflicts.go`) -/

/-- The per-line marker classification of `ConflictsAnalyzer.analyzeFile`
(conflicts.go, lines 110–151): start marker `<<<<<<<` + space (rejected if
the raw line contains `/*` or `*/`), separator exactly `=======`, end
marker `>>>>>>>` + space (same rejection). -/
def isConflictMarker (line : Str) : Bool :=
  let trimmed := goTrimSpace line
  let noCmt := !(containsSub line "/*".data) && !(containsSub line "*/".data)
  let startM : Bool :=
    if trimmed.length ≥ 8 ∧ trimmed.take 7 = "<<<<<<<".data ∧ trimmed.getD 7 ' ' = ' '
    then noCmt else false
  let sepM : Bool := trimmed = "=======".data
  let endM : Bool :=
    if trimmed.length ≥ 8 ∧ trimmed.take 7 = ">>>>>>>".data ∧ trimmed.getD 7 ' ' = ' '
    then noCmt else false
  startM || sepM || endM

/-- The marker grammar as the specification words it: the trimmed line is
exactly seven `=`, or it begins with exactly seven `<` (resp. `>`)
followed by a single space and further text while the raw line contains
neither `/*` nor `*/`. -/
def specConflictMarker (line : Str) : Bool :=
  let t := goTrimSpace line
  let sevenLt : Bool := t.take 7 = "<<<<<<<".data ∧ t.getD 7 ' ' = ' ' ∧ t.length ≥ 9
  let sevenGt : Bool := t.take 7 = ">>>>>>>".data ∧ t.getD 7 ' ' = ' ' ∧ t.length ≥ 9
  let sep : Bool := t = "=======".data
  sep || ((sevenLt || sevenGt) &&
    (!(containsSub line "/*".data) && !(containsSub line "*/".data)))

/-- Per-file result of the conflicts analyzer (`models.ConflictFileAnalysis`). -/
structure ConflictFileAnalysis where
  conflictLines : List Nat
  conflictBlocks : Nat
  conflictSnippets : List Str
  issues : List Issue
deriving DecidableEq, Repr

/-- The line scan of `analyzeFile`: 1-based line counter, empty (after
trim) lines skipped, marker lines collected, at most 5 snippets kept. -/
def conflictScanAux : List Str → Nat → List Nat → List Str → List Nat × List Str
  | [], _, cl, cs => (cl, cs)
  | l :: ls, n, cl, cs =>
    let n' := n + 1
    let trimmed := goTrimSpace l
    if trimmed.length = 0 then conflictScanAux ls n' cl cs
    else if isConflictMarker l then
      conflictScanAux ls n' (cl ++ [n']) (if cs.length < 5 then cs ++ [trimmed] else cs)
    else conflictScanAux ls n' cl cs

/-- `ConflictsAnalyzer.analyzeFile` on the file's lines: `nil` when no
marker line exists, otherwise the analysis with block count
`len/3` floored up to `1` and one critical issue per marker line. -/
def conflictAnalyzeLines (ls : List Str) : Option ConflictFileAnalysis :=
  let r := conflictScanAux ls 0 [] []
  let cl := r.1
  if cl.length = 0 then none
  else
    let blocks := if cl.length / 3 = 0 then 1 else cl.length / 3
    some ⟨cl, blocks, r.2, cl.map (fun n => ⟨n, Severity.critical⟩)⟩

/-- 1-based positions of the marker lines, with `n` lines already read. -/
def markersFrom : List Str → Nat → List Nat
  | [], _ => []
  | l :: ls, n =>
    if isConflictMarker l then (n + 1) :: markersFrom ls (n + 1)
    else markersFrom ls (n + 1)

/-- Number of marker lines of a file. -/
def markerCount (ls : List Str) : Nat := (ls.filter isConflictMarker).length

theorem head_dropWhile_not (p : Char → Bool) :
    ∀ (l : Str) (c : Char), (l.dropWhile p).head? = some c → p c = false := by
  intro l
  induction l with
  | nil => simp [List.dropWhile]
  | cons a l ih =>
    intro c
    by_cases h : p a
    · simpa [List.dropWhile, h] using ih c
    · simp only [List.dropWhile, h]
      intro e
      cases e
      simpa using h

theorem trim_not_end_space (s : Str) (c : Char) :
    (goTrimSpace s).getLast? = some c → isGoSpace c = false := by
  unfold goTrimSpace
  rw [List.getLast?_reverse]
  exact head_dropWhile_not isGoSpace _ c

/-- The two marker grammars agree on every line. -/
theorem marker_equiv (line : Str) : isConflictMarker line = specConflictMarker line := by
  unfold isConflictMarker specConflictMarker
  have hlast : ∀ c, (goTrimSpace line).getLast? = some c → isGoSpace c = false :=
    trim_not_end_space line
  set t := goTrimSpace line with ht
  have key : t.length ≥ 8 → (t[7]?.getD ' ') = ' ' → t.length ≥ 9 := by
    intro h8 h7
    by_contra h9
    have hlen : t.length = 8 := by omega
    have hlt : 7 < t.length := by omega
    have hg : t[7]? = some (t.get ⟨7, hlt⟩) := by
      rw [List.getElem?_eq_getElem hlt]
      simp
    have h7' : t.get ⟨7, hlt⟩ = ' ' := by
      rw [hg] at h7
      simpa using h7
    have hl : t.getLast? = some ' ' := by
      rw [List.getLast?_eq_getElem?, hlen]
      show t[7]? = some ' '
      rw [hg, h7']
    have := hlast ' ' hl
    simp [isGoSpace] at this
  by_cases h7 : (t[7]?.getD ' ') = ' '
  · by_cases h8 : 8 ≤ t.length
    · have h9 : 9 ≤ t.length := key h8 h7
      simp only [h7, h8, h9, and_true, true_and, decide_True]
      by_cases hA : t.take 7 = ['<', '<', '<', '<', '<', '<', '<'] <;>
        by_cases hG : t.take 7 = ['>', '>', '>', '>', '>', '>', '>'] <;>
          by_cases hS : t = ['=', '=', '=', '=', '=', '=', '='] <;>
            simp [hA, hG, hS, Bool.or_comm, Bool.or_assoc, Bool.or_left_comm]
    · have h9 : ¬ 9 ≤ t.length := fun h => h8 (by omega)
      simp [h8, h9]
  · simp [h7]

theorem conflictScanAux_fst (ls : List Str) : ∀ (n : Nat) (cl : List Nat) (cs : List Str),
    (conflictScanAux ls n cl cs).1 = cl ++ markersFrom ls n := by
  induction ls with
  | nil => intro n cl cs; simp [conflictScanAux, markersFrom]
  | cons l ls ih =>
    intro n cl cs
    by_cases he : (goTrimSpace l).length = 0
    · have hm : isConflictMarker l = false := by
        have h0 : goTrimSpace l = [] := List.length_eq_zero.mp he
        unfold isConflictMarker
        simp [h0]
      simp only [conflictScanAux, markersFrom, he, hm, Bool.false_eq_true, if_false, if_true,
        ite_false, ite_true]
      exact ih _ _ _
    · by_cases hm : isConflictMarker l = true
      · simp only [conflictScanAux, markersFrom, he, hm, ite_false, ite_true]
        rw [ih]
        simp
      · simp only [Bool.not_eq_true] at hm
        simp only [conflictScanAux, markersFrom, he, hm, Bool.false_eq_true, ite_false, ite_true]
        exact ih _ _ _

theorem markersFrom_length (ls : List Str) : ∀ n, (markersFrom ls n).length = markerCount ls := by
  induction ls with
  | nil => intro n; simp [markersFrom, markerCount]
  | cons l ls ih =>
    intro n
    simp only [markersFrom, markerCount, List.filter_cons]
    by_cases hm : isConflictMarker l = true
    · simp only [hm, ite_true, List.length_cons]
      have := ih (n + 1)
      simp only [markerCount] at this
      omega
    · have hm' : isConflictMarker l = false := by simpa using hm
      simp only [hm', Bool.false_eq_true, ite_false]
      have := ih (n + 1)
      simp only [markerCount] at this
      omega

/-- Closed form of `conflictAnalyzeLines`. -/
theorem conflictAnalyzeLines_eq (ls : List Str) :
    conflictAnalyzeLines ls =
      (if markerCount ls = 0 then none else
        some ⟨markersFrom ls 0,
              if markerCount ls / 3 = 0 then 1 else markerCount ls / 3,
              (conflictScanAux ls 0 [] []).2,
              (markersFrom ls 0).map (fun n => ⟨n, Severity.critical⟩)⟩) := by
  simp only [conflictAnalyzeLines, conflictScanAux_fst, List.nil_append, markersFrom_length]

/-- The seven-line end-to-end scenario from the specification. -/
def scenario7 : List Str :=
  ["Line 1", "<<<<<<< HEAD", "Our change", "=======",
   "Their change", ">>>>>>> feature/branch", "Line 5"].map String.data

/-- C4: a line is flagged by the conflict detector exactly under the
spec's character grammar (separator `=======`; exactly seven `<` or `>`
then one space and further text, with no `/*` or `*/` on the raw line);
every flagged line yields one critical issue carrying its 1-based line
number; `<<<<<<<HEAD` and a start-shaped line containing `/*` are never
flagged. -/
theorem conflict_marker_classification :
    (∀ line : Str, isConflictMarker line = specConflictMarker line) ∧
    (∀ (ls : List Str) (a : ConflictFileAnalysis), conflictAnalyzeLines ls = some a →
      a.conflictLines = markersFrom ls 0 ∧
      a.issues = a.conflictLines.map (fun n => ⟨n, Severity.critical⟩)) ∧
    isConflictMarker "<<<<<<<HEAD".data = false ∧
    isConflictMarker "<<<<<<< HEAD /* x".data = false := by
  refine ⟨marker_equiv, ?_, by decide, by decide⟩
  intro ls a h
  rw [conflictAnalyzeLines_eq] at h
  by_cases h0 : markerCount ls = 0
  · simp [h0] at h
  · rw [if_neg h0] at h
    cases h
    exact ⟨rfl, rfl⟩

/-- Witness for `conflict_marker_classification` at the spec's seven-line
scenario. -/
theorem conflict_marker_classification_witness :
    ([2, 4, 6] : List Nat) = markersFrom scenario7 0 ∧
    ([⟨2, .critical⟩, ⟨4, .critical⟩, ⟨6, .critical⟩] : List Issue) =
      ([2, 4, 6] : List Nat).map (fun n => ⟨n, Severity.critical⟩) :=
  conflict_marker_classification.2.1 scenario7
    ⟨[2, 4, 6], 1,
     ["<<<<<<< HEAD".data, "=======".data, ">>>>>>> feature/branch".data],
     [⟨2, .critical⟩, ⟨4, .critical⟩, ⟨6, .critical⟩]⟩ (by decide)

/-- C8: the detector is absent exactly when a file has no marker line;
with `n ≥ 1` marker lines the block count is `max (n / 3) 1`; the
spec's seven-line scenario yields marker lines 2, 4, 6 and one block. -/
theorem conflicts_block_count :
    (∀ ls : List Str, (conflictAnalyzeLines ls = none ↔ markerCount ls = 0)) ∧
    (∀ (ls : List Str) (a : ConflictFileAnalysis), conflictAnalyzeLines ls = some a →
      a.conflictBlocks = max (markerCount ls / 3) 1) ∧
    conflictAnalyzeLines scenario7 = some
      ⟨[2, 4, 6], 1,
       ["<<<<<<< HEAD".data, "=======".data, ">>>>>>> feature/branch".data],
       [⟨2, .critical⟩, ⟨4, .critical⟩, ⟨6, .critical⟩]⟩ := by
  refine ⟨?_, ?_, by decide⟩
  · intro ls
    rw [conflictAnalyzeLines_eq]
    by_cases h0 : markerCount ls = 0
    · simp [h0]
    · simp [h0]
  · intro ls a h
    rw [conflictAnalyzeLines_eq] at h
    by_cases h0 : markerCount ls = 0
    · simp [h0] at h
    · rw [if_neg h0] at h
      cases h
      show (if markerCount ls / 3 = 0 then 1 else markerCount ls / 3) = _
      rcases Nat.eq_zero_or_pos (markerCount ls / 3) with h3 | h3
      · simp [h3]
      · rw [if_neg (by omega)]
        omega

/-- Witness for `conflicts_block_count` at the seven-line scenario. -/
theorem conflicts_block_count_witness : (1 : Nat) = max (markerCount scenario7 / 3) 1 :=
  conflicts_block_count.2.1 scenario7
    ⟨[2, 4, 6], 1,
     ["<<<<<<< HEAD".data, "=======".data, ">>>>>>> feature/branch".data],
     [⟨2, .critical⟩, ⟨4, .critical⟩, ⟨6, .critical⟩]⟩ (by decide)

/-! ## JS/TS commented-code detector (`analyzers/js`) -/

/-- The code-indicative tokens of `isCode` (js source, lines 635–638). -/
def jsIndicators : List Str :=
  [";", "\x7b", "\x7d", "function", "const ", "var ", "let ", "=>", "return",
   "import ", "export ", "class ", "if (", "for (", "while (", "console.log"].map String.data

/-- The prose-indicative tokens of `isCode` (js source, lines 648–650). -/
def jsTextIndicators : List Str :=
  ["TODO:", "FIXME:", "NOTE:", "http://", "https://", " This ", " The ", " To "].map String.data

/-- `isCode` (js source, lines 632–658): the score gains one per code
token *contained* in the text (`strings.Contains`), loses one per prose
token contained, and the text is classified as code iff the score
reaches 1. -/
def isCode (text : Str) : Bool :=
  let score : Int :=
    jsIndicators.foldl (fun s ind => if containsSub text ind then s + 1 else s) 0
  let score :=
    jsTextIndicators.foldl (fun s ind => if containsSub text ind then s - 1 else s) score
  score ≥ 1

/-- Non-overlapping occurrence count, as Go's `strings.Count` computes it. -/
def countOccurAux : Nat → Str → Str → Nat
  | 0, _, _ => 0
  | fuel + 1, s, sub =>
    match s with
    | [] => 0
    | _ :: rest =>
      if sub.isPrefixOf s then 1 + countOccurAux fuel (s.drop sub.length) sub
      else countOccurAux fuel rest sub

/-- Number of non-overlapping occurrences of `sub` in `s`. -/
def countOccur (s sub : Str) : Nat := countOccurAux (s.length + 1) s sub

/-- The keyword score exactly as claim C7 words it: the score is
*incremented for each occurrence* of a code-indicative token and
*decremented for each occurrence* of a prose-indicative token. -/
def specOccurrenceScore (text : Str) : Int :=
  (jsIndicators.foldl (fun s ind => s + (countOccur text ind : Int)) 0) -
  (jsTextIndicators.foldl (fun s ind => s + (countOccur text ind : Int)) 0)

/-- The presence-based score of the amended claim: one increment per
code-indicative token that occurs in the text at all, one decrement per
prose-indicative token that occurs. -/
def presenceScore (text : Str) : Int :=
  ((jsIndicators.filter (fun ind => containsSub text ind)).length : Int) -
  ((jsTextIndicators.filter (fun ind => containsSub text ind)).length : Int)

/-- C7 counterexample: on `"; This The To ;;;;;"` the per-occurrence
score of the claim is 3 (six semicolons minus three prose tokens), yet
`isCode` rejects the text, because the code counts each token's
*presence* once, not its occurrences. -/
theorem isCode_refutes_per_occurrence_scoring :
    isCode "; This The To ;;;;;".data = false ∧
    specOccurrenceScore "; This The To ;;;;;".data ≥ 1 := by
  constructor
  · decide
  · decide

theorem foldl_count_pos (f : Str → Bool) (l : List Str) : ∀ init : Int,
    l.foldl (fun s ind => if f ind then s + 1 else s) init =
      init + ((l.filter f).length : Int) := by
  induction l with
  | nil => intro init; simp
  | cons a l ih =>
    intro init
    by_cases h : f a = true
    · simp [List.foldl_cons, List.filter_cons, h, ih]
      omega
    · have h' : f a = false := by simpa using h
      simp [List.foldl_cons, List.filter_cons, h', ih]

theorem foldl_count_neg (f : Str → Bool) (l : List Str) : ∀ init : Int,
    l.foldl (fun s ind => if f ind then s - 1 else s) init =
      init - ((l.filter f).length : Int) := by
  induction l with
  | nil => intro init; simp
  | cons a l ih =>
    intro init
    by_cases h : f a = true
    · simp [List.foldl_cons, List.filter_cons, h, ih]
      omega
    · have h' : f a = false := by simpa using h
      simp [List.foldl_cons, List.filter_cons, h', ih]

/-- C7 amended: `isCode` classifies a candidate as commented-out code
iff the *presence-based* net keyword score (one point per distinct token
present, not per occurrence) is at least 1. -/
theorem isCode_iff_presence_score (text : Str) :
    isCode text = true ↔ presenceScore text ≥ 1 := by
  unfold isCode presenceScore
  simp only [foldl_count_pos, foldl_count_neg]
  simp

/-- `s[a:b]` of the Go source. -/
def slice (s : Str) (a b : Nat) : Str := (s.drop a).take (b - a)

/-- First position `i ≥ start` at which `sub` occurs in `s`
(Go `strings.Index` restricted to the suffix). -/
def findSubAux (s sub : Str) : Nat → Nat → Option Nat
  | 0, _ => none
  | fuel + 1, i =>
    if i + sub.length > s.length then none
    else if sub.isPrefixOf (s.drop i) then some i
    else findSubAux s sub fuel (i + 1)

def findSub (s sub : Str) (start : Nat) : Option Nat :=
  findSubAux s sub (s.length + 1) start

/-- Non-overlapping minimal comment spans `op … cl`, as Go's
`FindAllStringIndex` computes them for the patterns `(?s)/\*.*?\*/` and
`(?s)<!--.*?-->`: from each leftmost opener, the nearest closer at or
after the opener's end; the next search resumes after the match. -/
def commentSpansAux (op cl s : Str) : Nat → Nat → List (Nat × Nat)
  | 0, _ => []
  | fuel + 1, pos =>
    match findSub s op pos with
    | none => []
    | some i =>
      match findSub s cl (i + op.length) with
      | none => []
      | some j => (i, j + cl.length) :: commentSpansAux op cl s fuel (j + cl.length)

def commentSpans (op cl s : Str) : List (Nat × Nat) :=
  commentSpansAux op cl s (s.length + 1) 0

/-- The `/* … */` spans of the JS rule (js source, lines 525–526). -/
def jsBlockSpans (content : Str) : List (Nat × Nat) :=
  commentSpans "/*".data "*/".data content

/-- `strings.Split(content, "\n")`. -/
def splitLines : Str → List Str
  | [] => [[]]
  | c :: rest =>
    if c = '\n' then [] :: splitLines rest
    else
      match splitLines rest with
      | [] => [[c]]
      | h :: t => (c :: h) :: t

/-- `strings.Count(s, "\n")`. -/
def countNewlines (s : Str) : Nat := (s.filter (fun c => c = '\n')).length

/-- 1-based line number of byte position `pos` (js source, line 546). -/
def lineNumberAt (s : Str) (pos : Nat) : Nat := countNewlines (s.take pos) + 1

/-- The contiguous `//` line-comment runs of the JS rule (js source,
lines 557–617): a run records the 1-based line where it starts and the
accumulated text of its lines with the leading `//` of each trimmed line
removed, joined by newlines. -/
def lineRunsAux : List Str → Nat → Option (Nat × Str) → List (Nat × Str)
  | [], _, none => []
  | [], _, some b => [b]
  | l :: ls, i, acc =>
    let trimmed := goTrimSpace l
    if "//".data.isPrefixOf trimmed then
      let c := trimmed.drop 2
      match acc with
      | some (st, blk) => lineRunsAux ls (i + 1) (some (st, blk ++ '\n' :: c))
      | none => lineRunsAux ls (i + 1) (some (i + 1, c))
    else
      match acc with
      | some b => b :: lineRunsAux ls (i + 1) none
      | none => lineRunsAux ls (i + 1) none

def lineRuns (lines : List Str) : List (Nat × Str) := lineRunsAux lines 0 none

/-- `CommentedCodeFinding` of the JS (and HTML) rule. -/
structure CommentedCodeFinding where
  commentedBytes : Nat
  commentedLines : Nat
  largestBlock : Nat
  issues : List Issue
deriving DecidableEq, Repr

/-- Accumulator of `CommentedCodeRule.Apply`. -/
structure CCAcc where
  commentedBytes : Nat
  commentedLines : Nat
  largestBlock : Nat
  issues : List Issue
deriving DecidableEq, Repr

/-- `CommentedCodeRule.Apply` for JS/TS (js source, lines 518–629):
block-comment pass over the `/* … */` spans, then line-comment pass over
the `//` runs; absent iff the commented-byte total is zero. -/
def jsApply (content : Str) : Option CommentedCodeFinding :=
  let bstep := fun (a : CCAcc) (sp : Nat × Nat) =>
    let inner := slice content (sp.1 + 2) (sp.2 - 2)
    if isCode inner then
      let matchLen := sp.2 - sp.1
      let matchLines := countNewlines (slice content sp.1 sp.2) + 1
      ⟨a.commentedBytes + matchLen, a.commentedLines + matchLines,
       if matchLen > a.largestBlock then matchLen else a.largestBlock,
       a.issues ++ [⟨lineNumberAt content sp.1, Severity.minor⟩]⟩
    else a
  let b := (jsBlockSpans content).foldl bstep ⟨0, 0, 0, []⟩
  let lstep := fun (a : CCAcc) (r : Nat × Str) =>
    if isCode r.2 then
      let linesInBlock := countNewlines r.2 + 1
      let blockBytes := r.2.length + linesInBlock * 2
      ⟨a.commentedBytes + blockBytes, a.commentedLines + linesInBlock,
       if blockBytes > a.largestBlock then blockBytes else a.largestBlock,
       a.issues ++ [⟨r.1, Severity.minor⟩]⟩
    else a
  let f := (lineRuns (splitLines content)).foldl lstep b
  if f.commentedBytes = 0 then none
  else some ⟨f.commentedBytes, f.commentedLines, f.largestBlock, f.issues⟩

/-- Number of lines covered by a line-comment run. -/
def runLen (r : Nat × Str) : Nat := countNewlines r.2 + 1

/-- Byte offset at which line `idx` (0-based) starts in the original
content (each earlier line contributes its length plus its newline). -/
def lineStartByte (lines : List Str) (idx : Nat) : Nat :=
  (lines.take idx).foldl (fun a l => a + l.length + 1) 0

/-- Byte interval of the original content covered by a line-comment run. -/
def runSpanBytes (lines : List Str) (r : Nat × Str) : Nat × Nat :=
  let st := r.1 - 1
  let last := st + runLen r - 1
  (lineStartByte lines st, lineStartByte lines last + (lines.getD last []).length)

/-- Some byte of the content lies in a block-comment span and in a
line-comment run at the same time. -/
def jsCandidatesOverlap (content : Str) : Bool :=
  (jsBlockSpans content).any fun b =>
    (lineRuns (splitLines content)).any fun r =>
      let s := runSpanBytes (splitLines content) r
      b.1 < s.2 && s.1 < b.2

/-- A block comment whose middle line is itself a `//` comment line. -/
def jsOverlapExample : Str := "/*\n// var x = 1;\n*/".data

/-- C5 counterexample: in `jsOverlapExample` the block-comment span
covers the whole 19-byte content while the line-comment pass also
extracts line 2 as a run, so the two candidate kinds overlap and the
commented-byte total (19 from the block pass plus 13 from the line pass)
exceeds the file size. -/
theorem js_candidates_overlap_cex :
    jsCandidatesOverlap jsOverlapExample = true ∧
    (jsApply jsOverlapExample).map CommentedCodeFinding.commentedBytes = some 32 ∧
    jsOverlapExample.length = 19 := by
  refine ⟨by decide, by decide, by decide⟩

theorem findSubAux_ge (s sub : Str) : ∀ (fuel i j : Nat),
    findSubAux s sub fuel i = some j → i ≤ j := by
  intro fuel
  induction fuel with
  | zero => intro i j h; simp [findSubAux] at h
  | succ fuel ih =>
    intro i j h
    simp only [findSubAux] at h
    by_cases h1 : i + sub.length > s.length
    · rw [if_pos h1] at h; cases h
    · rw [if_neg h1] at h
      by_cases h2 : sub.isPrefixOf (s.drop i) = true
      · rw [if_pos h2] at h
        cases h
        exact le_refl _
      · rw [if_neg h2] at h
        have := ih (i + 1) j h
        omega

theorem findSub_ge (s sub : Str) (start j : Nat) (h : findSub s sub start = some j) :
    start ≤ j := findSubAux_ge s sub _ start j h

theorem findSubAux_le (s sub : Str) : ∀ (fuel i j : Nat),
    findSubAux s sub fuel i = some j → j + sub.length ≤ s.length := by
  intro fuel
  induction fuel with
  | zero => intro i j h; simp [findSubAux] at h
  | succ fuel ih =>
    intro i j h
    simp only [findSubAux] at h
    by_cases h1 : i + sub.length > s.length
    · rw [if_pos h1] at h; cases h
    · rw [if_neg h1] at h
      by_cases h2 : sub.isPrefixOf (s.drop i) = true
      · rw [if_pos h2] at h
        cases h
        omega
      · rw [if_neg h2] at h
        exact ih (i + 1) j h

theorem findSub_le (s sub : Str) (start j : Nat) (h : findSub s sub start = some j) :
    j + sub.length ≤ s.length := findSubAux_le s sub _ start j h

/-- The comment-span scanner only produces spans after its start
position, every span is at least `|op| + |cl|` long, and successive
spans are disjoint and in order. -/
theorem commentSpansAux_inv (op cl s : Str) : ∀ (fuel pos : Nat),
    (∀ sp ∈ commentSpansAux op cl s fuel pos,
        (pos ≤ sp.1 ∧ sp.1 + op.length + cl.length ≤ sp.2) ∧ sp.2 ≤ s.length) ∧
    (commentSpansAux op cl s fuel pos).Pairwise (fun a b => a.2 ≤ b.1) := by
  intro fuel
  induction fuel with
  | zero => intro pos; simp [commentSpansAux]
  | succ fuel ih =>
    intro pos
    cases ho : findSub s op pos with
    | none =>
      have he : commentSpansAux op cl s (fuel + 1) pos = [] := by
        simp [commentSpansAux, ho]
      rw [he]
      simp
    | some i =>
      cases hc : findSub s cl (i + op.length) with
      | none =>
        have he : commentSpansAux op cl s (fuel + 1) pos = [] := by
          simp [commentSpansAux, ho, hc]
        rw [he]
        simp
      | some j =>
        have he : commentSpansAux op cl s (fuel + 1) pos =
            (i, j + cl.length) :: commentSpansAux op cl s fuel (j + cl.length) := by
          simp [commentSpansAux, ho, hc]
        rw [he]
        have hio : pos ≤ i := findSub_ge s op pos i ho
        have hjc : i + op.length ≤ j := findSub_ge s cl _ j hc
        have hje : j + cl.length ≤ s.length := findSub_le s cl _ j hc
        obtain ⟨ihb, ihp⟩ := ih (j + cl.length)
        constructor
        · intro sp hsp
          rcases List.mem_cons.mp hsp with h | h
          · subst h
            exact ⟨⟨hio, by simp; omega⟩, hje⟩
          · have := ihb sp h
            exact ⟨⟨by omega, this.1.2⟩, this.2⟩
        · refine List.Pairwise.cons ?_ ihp
          intro b hb
          exact (ihb b hb).1.1

theorem splitLines_no_newline : ∀ (s : Str), ∀ l ∈ splitLines s, countNewlines l = 0 := by
  intro s
  induction s with
  | nil => simp [splitLines, countNewlines]
  | cons c rest ih =>
    intro l hl
    by_cases hc : c = '\n'
    · rw [splitLines, if_pos hc] at hl
      rcases List.mem_cons.mp hl with h | h
      · subst h; simp [countNewlines]
      · exact ih l h
    · rw [splitLines, if_neg hc] at hl
      cases hr : splitLines rest with
      | nil =>
        rw [hr] at hl
        rcases List.mem_cons.mp hl with h | h
        · subst h; simp [countNewlines, hc]
        · simp at h
      | cons h t =>
        rw [hr] at hl
        rcases List.mem_cons.mp hl with h1 | h1
        · subst h1
          have hh : countNewlines h = 0 := ih h (by rw [hr]; exact List.mem_cons_self _ _)
          simp only [countNewlines, List.filter_cons] at *
          simp [hc, hh]
        · exact ih l (by rw [hr]; exact List.mem_cons_of_mem _ h1)

theorem countNewlines_eq_zero_iff (l : Str) : countNewlines l = 0 ↔ ∀ c ∈ l, ¬ c = '\n' := by
  unfold countNewlines
  rw [List.length_eq_zero, List.filter_eq_nil_iff]
  simp

theorem countNewlines_trim_drop (l : Str) (h : countNewlines l = 0) :
    countNewlines ((goTrimSpace l).drop 2) = 0 := by
  rw [countNewlines_eq_zero_iff] at h ⊢
  intro c hc
  apply h
  have h1 : c ∈ goTrimSpace l := List.mem_of_mem_drop hc
  unfold goTrimSpace at h1
  have h2 := List.mem_reverse.mp h1
  have h3 : c ∈ (l.dropWhile isGoSpace).reverse := (List.dropWhile_sublist _).subset h2
  have h4 : c ∈ l.dropWhile isGoSpace := List.mem_reverse.mp h3
  exact (List.dropWhile_sublist _).subset h4

theorem countNewlines_append (a b : Str) :
    countNewlines (a ++ b) = countNewlines a + countNewlines b := by
  simp [countNewlines]

/-- Structure of the line-comment run scanner: runs never overlap, a
fresh scan only yields runs on later lines, and a scan with an open run
first closes that run. -/
theorem lineRunsAux_inv (ls : List Str) (hls : ∀ l ∈ ls, countNewlines l = 0) : ∀ (i : Nat),
    ((lineRunsAux ls i none).Pairwise (fun a b => a.1 + runLen a < b.1) ∧
      ∀ r ∈ lineRunsAux ls i none, i + 1 ≤ r.1) ∧
    (∀ st blk, st + countNewlines blk = i →
      ∃ blk' rest,
        lineRunsAux ls i (some (st, blk)) = (st, blk') :: rest ∧
        (lineRunsAux ls i (some (st, blk))).Pairwise (fun a b => a.1 + runLen a < b.1) ∧
        ∀ r ∈ rest, st + countNewlines blk' + 2 ≤ r.1) := by
  induction ls with
  | nil =>
    intro i
    refine ⟨⟨by simp [lineRunsAux], by simp [lineRunsAux]⟩, ?_⟩
    intro st blk _
    exact ⟨blk, [], rfl, by simp [lineRunsAux], by simp⟩
  | cons l ls ih =>
    intro i
    have hl0 : countNewlines l = 0 := hls l (List.mem_cons_self _ _)
    have hls' : ∀ l' ∈ ls, countNewlines l' = 0 :=
      fun l' h => hls l' (List.mem_cons_of_mem _ h)
    have ihi := ih hls'
    by_cases hcmt : "//".data.isPrefixOf (goTrimSpace l) = true
    · have hc0 : countNewlines ((goTrimSpace l).drop 2) = 0 := countNewlines_trim_drop l hl0
      constructor
      · -- acc = none: open a run at line i+1
        have hrec := (ihi (i + 1)).2 (i + 1) ((goTrimSpace l).drop 2) (by omega)
        obtain ⟨blk', rest, heq, hpw, hrest⟩ := hrec
        have hout : lineRunsAux (l :: ls) i none = (i + 1, blk') :: rest := by
          simp only [lineRunsAux, hcmt, if_pos, ite_true]
          exact heq
        rw [hout]
        rw [heq] at hpw
        refine ⟨hpw, ?_⟩
        intro r hr
        rcases List.mem_cons.mp hr with h | h
        · subst h; omega
        · have := hrest r h; omega
      · -- acc = some (st, blk): extend the run
        intro st blk hst
        have hone : countNewlines ('\n' :: (goTrimSpace l).drop 2) = 1 := by
          have hstep : countNewlines ('\n' :: (goTrimSpace l).drop 2) =
              countNewlines ((goTrimSpace l).drop 2) + 1 := by
            simp [countNewlines, List.filter_cons]
          omega
        have hinv : st + countNewlines (blk ++ '\n' :: (goTrimSpace l).drop 2) = i + 1 := by
          rw [countNewlines_append, hone]
          omega
        have hrec := (ihi (i + 1)).2 st (blk ++ '\n' :: (goTrimSpace l).drop 2) hinv
        obtain ⟨blk', rest, heq, hpw, hrest⟩ := hrec
        refine ⟨blk', rest, ?_, ?_, hrest⟩
        · simp only [lineRunsAux, hcmt, ite_true]
          exact heq
        · simp only [lineRunsAux, hcmt, ite_true]
          exact hpw
    · have hcmt' : ("//".data.isPrefixOf (goTrimSpace l)) = false := by
        simp only [Bool.not_eq_true] at hcmt
        exact hcmt
      constructor
      · -- acc = none: nothing happens on this line
        have hrec := (ihi (i + 1)).1
        constructor
        · simpa only [lineRunsAux, hcmt', Bool.false_eq_true, ite_false] using hrec.1
        · intro r hr
          simp only [lineRunsAux, hcmt', Bool.false_eq_true, ite_false] at hr
          have := hrec.2 r hr
          omega
      · -- acc = some (st, blk): close the run here
        intro st blk hst
        have hrec := (ihi (i + 1)).1
        refine ⟨blk, lineRunsAux ls (i + 1) none, ?_, ?_, ?_⟩
        · simp only [lineRunsAux, hcmt', Bool.false_eq_true, ite_false]
        · simp only [lineRunsAux, hcmt', Bool.false_eq_true, ite_false]
          refine List.Pairwise.cons ?_ hrec.1
          intro r hr
          have := hrec.2 r hr
          simp only [runLen]
          omega
        · intro r hr
          have := hrec.2 r hr
          omega

/-- C5 amended: within each extraction pass the candidates are disjoint
— the `/* … */` spans are pairwise disjoint byte intervals, and the `//`
runs cover pairwise disjoint line ranges — but a block span and a line
run may overlap each other (see the counterexample). -/
theorem js_candidate_kinds_internally_disjoint (content : Str) :
    (jsBlockSpans content).Pairwise (fun a b => a.2 ≤ b.1) ∧
    (lineRuns (splitLines content)).Pairwise (fun a b => a.1 + runLen a < b.1) := by
  constructor
  · exact (commentSpansAux_inv "/*".data "*/".data content _ 0).2
  · exact ((lineRunsAux_inv (splitLines content) (splitLines_no_newline content) 0).1).1

/-! ## HTML commented-code detector (`analyzers/html`) -/

/-- The `<!-- … -->` spans of the HTML rule (html source, lines 229–230). -/
def htmlCommentSpans (content : Str) : List (Nat × Nat) :=
  commentSpans "<!--".data "-->".data content

/-- Second character class of the tag pattern `<[/a-zA-Z][^>]*>`. -/
def isTagStart (c : Char) : Bool :=
  c = '/' || ('a' ≤ c && c ≤ 'z') || ('A' ≤ c && c ≤ 'Z')

/-- `tagRegex.MatchString`: the text contains `<`, then a letter or `/`,
then a later `>` (html source, line 237). -/
def hasTag : Str → Bool
  | [] => false
  | c :: rest =>
    (c = '<' &&
      (match rest with
       | [] => false
       | d :: rest2 => isTagStart d && rest2.contains '>')) || hasTag rest

/-- The inner text the rule tests: the text strictly between the comment
delimiters when the match is at least 7 bytes long, the raw match
otherwise (html source, lines 245–248). -/
def htmlInner (content : Str) (sp : Nat × Nat) : Str :=
  let m := slice content sp.1 sp.2
  if m.length ≥ 7 then slice m 4 (m.length - 3) else m

/-- One iteration of the HTML rule's loop over comment spans (html
source, lines 239–271): a span whose inner text matches the tag pattern
contributes its length, its line count, and one minor issue at its
starting line; other spans are skipped. -/
def htmlStep (content : Str) (a : CCAcc) (sp : Nat × Nat) : CCAcc :=
  if hasTag (htmlInner content sp) then
    let matchLen := sp.2 - sp.1
    let matchLines := countNewlines (slice content sp.1 sp.2) + 1
    ⟨a.commentedBytes + matchLen, a.commentedLines + matchLines,
     if matchLen > a.largestBlock then matchLen else a.largestBlock,
     a.issues ++ [⟨lineNumberAt content sp.1, Severity.minor⟩]⟩
  else a

/-- `CommentedCodeRule.Apply` for HTML (html source, lines 228–283):
absent iff the commented-byte total is zero. -/
def htmlApply (content : Str) : Option CommentedCodeFinding :=
  let f := (htmlCommentSpans content).foldl (htmlStep content) ⟨0, 0, 0, []⟩
  if f.commentedBytes = 0 then none
  else some ⟨f.commentedBytes, f.commentedLines, f.largestBlock, f.issues⟩

theorem htmlFold_bytes_le (content : Str) : ∀ (spans : List (Nat × Nat)) (a : CCAcc),
    a.commentedBytes ≤ (spans.foldl (htmlStep content) a).commentedBytes := by
  intro spans
  induction spans with
  | nil => intro a; simp
  | cons sp spans ih =>
    intro a
    have h1 : a.commentedBytes ≤ (htmlStep content a sp).commentedBytes := by
      unfold htmlStep
      by_cases h : hasTag (htmlInner content sp) = true
      · simp [h]
      · simp only [Bool.not_eq_true] at h
        simp [h]
    calc a.commentedBytes ≤ (htmlStep content a sp).commentedBytes := h1
      _ ≤ _ := ih (htmlStep content a sp)

theorem htmlFold_bytes_zero (content : Str) : ∀ (spans : List (Nat × Nat)) (a : CCAcc),
    (∀ sp ∈ spans, sp.1 + 7 ≤ sp.2) →
    ((spans.foldl (htmlStep content) a).commentedBytes = 0 ↔
      a.commentedBytes = 0 ∧ ∀ sp ∈ spans, hasTag (htmlInner content sp) = false) := by
  intro spans
  induction spans with
  | nil => intro a _; simp
  | cons sp spans ih =>
    intro a hlen
    rw [List.foldl_cons]
    by_cases ht : hasTag (htmlInner content sp) = true
    · have hb : (htmlStep content a sp).commentedBytes = a.commentedBytes + (sp.2 - sp.1) := by
        unfold htmlStep
        simp [ht]
      constructor
      · intro hz
        exfalso
        have hmono := htmlFold_bytes_le content spans (htmlStep content a sp)
        have h7 := hlen sp (List.mem_cons_self _ _)
        omega
      · rintro ⟨-, hall⟩
        exact absurd (hall sp (List.mem_cons_self _ _)) (by simp [ht])
    · have ht' : hasTag (htmlInner content sp) = false := by
        simp only [Bool.not_eq_true] at ht
        exact ht
      have hstep : htmlStep content a sp = a := by
        unfold htmlStep
        simp [ht']
      rw [hstep, ih a (fun sp' h => hlen sp' (List.mem_cons_of_mem _ h))]
      constructor
      · rintro ⟨h0, hall⟩
        refine ⟨h0, ?_⟩
        intro sp' hsp'
        rcases List.mem_cons.mp hsp' with h | h
        · subst h; exact ht'
        · exact hall sp' h
      · rintro ⟨h0, hall⟩
        exact ⟨h0, fun sp' h => hall sp' (List.mem_cons_of_mem _ h)⟩

/-- Spans produced for the HTML rule are in bounds and at least 7 long. -/
theorem htmlCommentSpans_sound (content : Str) :
    ∀ sp ∈ htmlCommentSpans content, (sp.1 + 7 ≤ sp.2 ∧ sp.2 ≤ content.length) := by
  intro sp hsp
  have := (commentSpansAux_inv "<!--".data "-->".data content _ 0).1 sp hsp
  constructor
  · have h := this.1.2
    simpa using h
  · exact this.2

/-- The file whose only comment is plain text. -/
def htmlPlainExample : Str := "<!-- This is a regular comment -->".data

/-- A file whose comment wraps a `<div>`, starting on line 2. -/
def htmlDivExample : Str := "<p>hi</p>\n<!-- <div>old</div> -->\n".data

/-- C9: the HTML rule reports a file iff some comment's inner text
contains a tag-shaped substring; the plain-comment file yields no
finding, while the file whose comment wraps a `<div>` yields exactly one
minor issue at the comment's starting line. -/
theorem html_tag_shape_gate :
    (∀ content : Str, htmlApply content = none ↔
      ∀ sp ∈ htmlCommentSpans content, hasTag (htmlInner content sp) = false) ∧
    htmlApply htmlPlainExample = none ∧
    (htmlApply htmlDivExample).map (fun f => f.issues.map (fun i => (i.line, i.severity))) =
      some [(2, Severity.minor)] := by
  refine ⟨?_, by decide, by decide⟩
  intro content
  unfold htmlApply
  have hz := htmlFold_bytes_zero content (htmlCommentSpans content) ⟨0, 0, 0, []⟩
    (fun sp h => (htmlCommentSpans_sound content sp h).1)
  simp only [true_and] at hz
  by_cases h0 : ((htmlCommentSpans content).foldl (htmlStep content) ⟨0, 0, 0, []⟩).commentedBytes = 0
  · simp only [h0, if_pos rfl, ite_true]
    simp only [h0, true_iff] at hz
    simpa using hz
  · simp only [h0, ite_false]
    constructor
    · intro h
      simp at h
    · intro h
      exact absurd (hz.mpr h) h0

/-- Witness for `html_tag_shape_gate`: its general direction applied to
the plain-comment file forces the tag test to fail on its single span. -/
theorem html_tag_shape_gate_witness :
    hasTag (htmlInner htmlPlainExample (0, 34)) = false :=
  ((html_tag_shape_gate.1 htmlPlainExample).mp html_tag_shape_gate.2.1) (0, 34) (by decide)

/-- C10: every match of the HTML comment pattern is at least 7 bytes
long, so the guarded fallback keeping the delimiters is unreachable and
the tag test always sees exactly the text strictly between `<!--` and
`-->`. -/
theorem html_inner_always_strict :
    ∀ (content : Str) (sp : Nat × Nat), sp ∈ htmlCommentSpans content →
      7 ≤ sp.2 - sp.1 ∧
      htmlInner content sp = slice (slice content sp.1 sp.2) 4 ((sp.2 - sp.1) - 3) := by
  intro content sp hsp
  obtain ⟨h7, hle⟩ := htmlCommentSpans_sound content sp hsp
  have hlen : (slice content sp.1 sp.2).length = sp.2 - sp.1 := by
    unfold slice
    rw [List.length_take, List.length_drop]
    omega
  refine ⟨by omega, ?_⟩
  show (if (slice content sp.1 sp.2).length ≥ 7 then
          slice (slice content sp.1 sp.2) 4 ((slice content sp.1 sp.2).length - 3)
        else slice content sp.1 sp.2) = _
  rw [hlen, if_pos (by omega)]

/-- Witness for `html_inner_always_strict` at the plain-comment file's
single span. -/
theorem html_inner_always_strict_witness :
    7 ≤ 34 - 0 ∧
    htmlInner htmlPlainExample (0, 34) =
      slice (slice htmlPlainExample 0 34) 4 ((34 - 0) - 3) :=
  html_inner_always_strict htmlPlainExample (0, 34) (by decide)

/-! ## Laravel catch-block rule (`analyzers/php`, syntax-tree visitor) -/

/-- The fragment of the php-parser node algebra inspected by
`isReportCall`: an expression statement wrapping a function call whose
function is a relative `name.Name` made of `name.NamePart` parts.
`other` stands for every other node kind (method calls, static calls,
fully-qualified names, non-expression statements, …). -/
inductive PHPNode where
  | stmtExpression (e : PHPNode)
  | exprFunctionCall (function : PHPNode)
  | nameName (parts : List PHPNode)
  | nameNamePart (value : Str)
  | other

/-- `isReportCall` (catch rule source, lines 132–150): a bare call to a
single-segment function literally named `report`. -/
def isReportCall : PHPNode → Bool
  | .stmtExpression e =>
    match e with
    | .exprFunctionCall f =>
      match f with
      | .nameName parts =>
        match parts with
        | [p] =>
          match p with
          | .nameNamePart v => v = "report".data
          | _ => false
        | _ => false
      | _ => false
    | _ => false
  | _ => false

/-- A `stmt.Catch` node: its statement list and the start line of its
position (a `nil` position yields line 0, catch rule source, lines
109–113). -/
structure CatchClause where
  stmts : List PHPNode
  position : Option Nat

def CatchClause.startLine (c : CatchClause) : Nat :=
  match c.position with
  | some p => p
  | none => 0

/-- Index of the first report call, as the `break`ing loop of
`analyzeCatch` finds it (lines 98–107). -/
def findReportIdx : List PHPNode → Option Nat
  | [] => none
  | s :: rest => if isReportCall s then some 0 else (findReportIdx rest).map (· + 1)

structure CatchVisitorState where
  issues : List Issue
  missingReport : Nat
  misplacedReport : Nat

/-- `catchVisitor.analyzeCatch` (lines 91–130): no report call in the
clause yields one critical issue at the clause's start line, a report
call that is not the first statement yields one medium issue there, and
a leading report call yields nothing. -/
def analyzeCatch (v : CatchVisitorState) (c : CatchClause) : CatchVisitorState :=
  match findReportIdx c.stmts with
  | none =>
      ⟨v.issues ++ [⟨c.startLine, Severity.critical⟩], v.missingReport + 1, v.misplacedReport⟩
  | some 0 => v
  | some (_ + 1) =>
      ⟨v.issues ++ [⟨c.startLine, Severity.medium⟩], v.missingReport, v.misplacedReport + 1⟩

structure LaravelCatchBlockFinding where
  issues : List Issue
  missingReport : Nat
  misplacedReport : Nat

/-- `LaravelCatchBlockRule.Apply` (lines 28–51), the external PHP parser
abstracted into the ordered list of catch clauses its walk visits (a
file whose parse yields no root is the empty list): absent exactly when
no clause produced an issue. -/
def laravelCatchApply (clauses : List CatchClause) : Option LaravelCatchBlockFinding :=
  let v := clauses.foldl analyzeCatch ⟨[], 0, 0⟩
  if v.issues.length = 0 then none
  else some ⟨v.issues, v.missingReport, v.misplacedReport⟩

/-- Issues one clause contributes on its own. -/
def clauseIssues (c : CatchClause) : List Issue := (analyzeCatch ⟨[], 0, 0⟩ c).issues

theorem analyzeCatch_issues (v : CatchVisitorState) (c : CatchClause) :
    (analyzeCatch v c).issues = v.issues ++ clauseIssues c := by
  unfold analyzeCatch clauseIssues
  cases h : findReportIdx c.stmts with
  | none => simp [analyzeCatch, h]
  | some n =>
    cases n with
    | zero => simp [analyzeCatch, h]
    | succ n => simp [analyzeCatch, h]

theorem clauseIssues_len_le_one (c : CatchClause) : (clauseIssues c).length ≤ 1 := by
  unfold clauseIssues analyzeCatch
  cases h : findReportIdx c.stmts with
  | none => simp
  | some n =>
    cases n with
    | zero => simp
    | succ n => simp

theorem findReportIdx_none (l : List PHPNode) (h : ∀ s ∈ l, isReportCall s = false) :
    findReportIdx l = none := by
  induction l with
  | nil => rfl
  | cons s rest ih =>
    have hs := h s (List.mem_cons_self _ _)
    simp only [findReportIdx, hs, Bool.false_eq_true, ite_false]
    rw [ih (fun x hx => h x (List.mem_cons_of_mem _ hx))]
    rfl

theorem findReportIdx_isSome (l : List PHPNode) (s : PHPNode) (hmem : s ∈ l)
    (hr : isReportCall s = true) : (findReportIdx l).isSome = true := by
  induction l with
  | nil => cases hmem
  | cons a rest ih =>
    by_cases ha : isReportCall a = true
    · simp [findReportIdx, ha]
    · have ha' : isReportCall a = false := by simpa using ha
      simp only [findReportIdx, ha', Bool.false_eq_true, ite_false]
      rcases List.mem_cons.mp hmem with h | h
      · subst h; rw [hr] at ha'; cases ha'
      · have := ih h
        cases hfi : findReportIdx rest with
        | none => rw [hfi] at this; simp at this
        | some k => simp [hfi]

theorem foldl_catch_issues_len (cs : List CatchClause) : ∀ v : CatchVisitorState,
    ((cs.foldl analyzeCatch v).issues).length ≤ v.issues.length + cs.length := by
  induction cs with
  | nil => intro v; simp
  | cons c cs ih =>
    intro v
    rw [List.foldl_cons]
    calc ((cs.foldl analyzeCatch (analyzeCatch v c)).issues).length
        ≤ (analyzeCatch v c).issues.length + cs.length := ih _
      _ ≤ v.issues.length + 1 + cs.length := by
          rw [analyzeCatch_issues]
          have := clauseIssues_len_le_one c
          simp only [List.length_append]
          omega
      _ = v.issues.length + (c :: cs).length := by simp; omega

/-- C2: per catch clause — no bare `report` call yields exactly one
critical issue at the clause's start line; a `report` call that is not
the first statement yields exactly one medium issue at that line; a
leading `report` call yields nothing; every clause appends only its own
issues, so `n` clauses yield at most `n` issues; and `Apply` is absent
exactly when no clause yielded an issue. -/
theorem catch_block_policy :
    (∀ c : CatchClause, (∀ s ∈ c.stmts, isReportCall s = false) →
      clauseIssues c = [⟨c.startLine, Severity.critical⟩]) ∧
    (∀ c : CatchClause, (∃ s ∈ c.stmts, isReportCall s = true) →
      (∀ s, c.stmts.head? = some s → isReportCall s = false) →
      clauseIssues c = [⟨c.startLine, Severity.medium⟩]) ∧
    (∀ (c : CatchClause) (s : PHPNode), c.stmts.head? = some s → isReportCall s = true →
      clauseIssues c = []) ∧
    (∀ (v : CatchVisitorState) (c : CatchClause),
      (analyzeCatch v c).issues = v.issues ++ clauseIssues c) ∧
    (∀ cs : List CatchClause,
      ((cs.foldl analyzeCatch ⟨[], 0, 0⟩).issues).length ≤ cs.length) ∧
    (∀ cs : List CatchClause,
      laravelCatchApply cs = none ↔ (cs.foldl analyzeCatch ⟨[], 0, 0⟩).issues = []) := by
  refine ⟨?_, ?_, ?_, analyzeCatch_issues, ?_, ?_⟩
  · intro c h
    unfold clauseIssues analyzeCatch
    rw [findReportIdx_none c.stmts h]
    simp
  · intro c hex hhead
    obtain ⟨s, hmem, hr⟩ := hex
    cases hstmts : c.stmts with
    | nil => rw [hstmts] at hmem; cases hmem
    | cons s0 rest =>
      have h0 : isReportCall s0 = false := hhead s0 (by rw [hstmts]; rfl)
      have hsome : (findReportIdx rest).isSome = true := by
        rcases List.mem_cons.mp (hstmts ▸ hmem) with h | h
        · subst h; rw [hr] at h0; cases h0
        · exact findReportIdx_isSome rest s h hr
      unfold clauseIssues analyzeCatch
      rw [hstmts]
      cases hfi : findReportIdx rest with
      | none => rw [hfi] at hsome; simp at hsome
      | some k =>
        simp only [findReportIdx, h0, Bool.false_eq_true, ite_false, hfi, Option.map_some']
        rfl
  · intro c s hhead hr
    cases hstmts : c.stmts with
    | nil => rw [hstmts] at hhead; cases hhead
    | cons s0 rest =>
      have hs0 : s0 = s := by
        rw [hstmts, List.head?_cons] at hhead
        exact Option.some.inj hhead
      unfold clauseIssues analyzeCatch
      rw [hstmts]
      simp only [findReportIdx, hs0, hr, ite_true]
  · intro cs
    have := foldl_catch_issues_len cs ⟨[], 0, 0⟩
    simpa using this
  · intro cs
    unfold laravelCatchApply
    by_cases h : ((cs.foldl analyzeCatch ⟨[], 0, 0⟩).issues).length = 0
    · rw [if_pos h]
      constructor
      · intro _
        exact List.length_eq_zero.mp h
      · intro _
        rfl
    · rw [if_neg h]
      constructor
      · intro hx
        cases hx
      · intro he
        rw [he] at h
        exact absurd rfl h

/-- Witness for `catch_block_policy`: three one-clause scenarios of the
repository's own test file (catch start line 8) — a silent catch, a
misplaced `report`, and a leading `report`. -/
theorem catch_block_policy_witness :
    clauseIssues ⟨[.other], some 8⟩ = [⟨8, Severity.critical⟩] ∧
    clauseIssues ⟨[.other,
      .stmtExpression (.exprFunctionCall (.nameName [.nameNamePart "report".data]))],
      some 8⟩ = [⟨8, Severity.medium⟩] ∧
    clauseIssues ⟨[.stmtExpression (.exprFunctionCall (.nameName [.nameNamePart "report".data])),
      .other], some 8⟩ = [] :=
  ⟨catch_block_policy.1 ⟨[.other], some 8⟩ (by decide),
   catch_block_policy.2.1 _
     ⟨.stmtExpression (.exprFunctionCall (.nameName [.nameNamePart "report".data])),
      List.mem_cons_of_mem _ (List.mem_cons_self _ _), by decide⟩
     (by intro s h; cases h; decide),
   catch_block_policy.2.2.1 _
     (.stmtExpression (.exprFunctionCall (.nameName [.nameNamePart "report".data])))
     rfl (by decide)⟩

/-! ## PHP commented-function detector (`analyzers/php`)

The function inventory is extracted with Go's regexp package
(leftmost-first, Perl-preference matching) using the pattern
`(?m)(?:^|[\s/]+|[*]+)\s*(?:public|private|protected|static)?\s*function\s+(\w+)\s*\(`.
The matcher below is a direct backtracking implementation of that fixed
pattern: alternatives are tried in pattern order, quantifiers greedily,
longest-first — exactly the preference order of a backtracking search,
which Go's engine is specified to agree with. -/

/-- `\s` of Go's regexp (RE2): `[\t\n\f\r ]`. -/
def isReSpace (c : Char) : Bool :=
  c = '\t' || c = '\n' || c = Char.ofNat 0x0C || c = '\r' || c = ' '

/-- `\w` of Go's regexp: `[0-9A-Za-z_]`. -/
def isReWord (c : Char) : Bool :=
  ('0' ≤ c && c ≤ '9') || ('a' ≤ c && c ≤ 'z') || ('A' ≤ c && c ≤ 'Z') || c = '_'

/-- Try the continuation at `j, j-1, …, j-steps`, first success wins
(greedy backtracking order). -/
def firstSome (k : Nat → Option α) : Nat → Nat → Option α
  | j, 0 => k j
  | j, steps + 1 => (k j).orElse fun _ => firstSome k (j - 1) steps

/-- End of the maximal run of `p`-characters starting at `i`. -/
def runEnd (p : Char → Bool) (s : Str) (i : Nat) : Nat :=
  i + ((s.drop i).takeWhile p).length

/-- Greedy `p*`, then the continuation. -/
def starThen (p : Char → Bool) (s : Str) (i : Nat) (k : Nat → Option α) : Option α :=
  firstSome k (runEnd p s i) (runEnd p s i - i)

/-- Greedy `p+`, then the continuation. -/
def plusThen (p : Char → Bool) (s : Str) (i : Nat) (k : Nat → Option α) : Option α :=
  let e := runEnd p s i
  if e = i then none else firstSome k e (e - i - 1)

/-- A literal, then the continuation. -/
def litThen (w : Str) (s : Str) (i : Nat) (k : Nat → Option α) : Option α :=
  if w.isPrefixOf (s.drop i) then k (i + w.length) else none

/-- `(?:public|private|protected|static)?`: the alternatives in pattern
order, then the empty option (`?` is greedy). -/
def modThen (s : Str) (i : Nat) (k : Nat → Option α) : Option α :=
  (litThen "public".data s i k).orElse fun _ =>
  (litThen "private".data s i k).orElse fun _ =>
  (litThen "protected".data s i k).orElse fun _ =>
  (litThen "static".data s i k).orElse fun _ => k i

/-- Greedy `(\w+)` capture, then the continuation. -/
def nameThen (s : Str) (i : Nat) (k : Nat → Str → Option α) : Option α :=
  let e := runEnd isReWord s i
  if e = i then none
  else firstSome (fun j => k j (slice s i j)) e (e - i - 1)

/-- `(?m)^`: start of the text or the position right after a newline. -/
def atLineStart (s : Str) (i : Nat) : Bool :=
  i = 0 || (s.getD (i - 1) ' ') = '\n'

/-- `\s*(?:public|private|protected|static)?\s*function\s+(\w+)\s*\(`
at position `i`: end position and captured name. -/
def matchDeclTail (s : Str) (i : Nat) : Option (Nat × Str) :=
  starThen isReSpace s i fun a =>
  modThen s a fun b =>
  starThen isReSpace s b fun c =>
  litThen "function".data s c fun d =>
  plusThen isReSpace s d fun e =>
  nameThen s e fun f nm =>
  starThen isReSpace s f fun g =>
  litThen "(".data s g fun h =>
  some (h, nm)

/-- The full pattern at position `i`: prefix group `(?:^|[\s/]+|[*]+)`
(alternatives in order), then the declaration tail. -/
def matchDeclAt (s : Str) (i : Nat) : Option (Nat × Str) :=
  (if atLineStart s i then matchDeclTail s i else none).orElse fun _ =>
  (plusThen (fun c => isReSpace c || c = '/') s i fun a => matchDeclTail s a).orElse fun _ =>
  plusThen (fun c => c = '*') s i fun a => matchDeclTail s a

/-- Leftmost match at or after `pos`: start, end and captured name. -/
def findDeclFrom (s : Str) : Nat → Nat → Option (Nat × Nat × Str)
  | 0, _ => none
  | fuel + 1, pos =>
    if pos > s.length then none
    else
      match matchDeclAt s pos with
      | some (e, nm) => some (pos, e, nm)
      | none => findDeclFrom s fuel (pos + 1)

/-- `FindAllStringSubmatch`: successive leftmost matches, each search
resuming at the end of the previous (non-empty) match. -/
def findAllDecls (s : Str) : Nat → Nat → List (Nat × Nat × Str)
  | 0, _ => []
  | fuel + 1, pos =>
    match findDeclFrom s (s.length + 1) pos with
    | none => []
    | some (st, e, nm) =>
      (st, e, nm) :: findAllDecls s fuel (if st < e then e else st + 1)

/-- `findPHPFunctions` (php source, lines 313–326): every captured
declaration name except `__construct` and `__destruct`, in match order. -/
def findPHPFunctions (code : Str) : List Str :=
  ((findAllDecls code (code.length + 1) 0).map (fun m => m.2.2)).filter
    (fun nm => !(nm = "__construct".data) && !(nm = "__destruct".data))

/-- `(?s)/\*.*?\*/` replaced by the empty string (php source, line 301). -/
def stripBlockCommentsAux : Nat → Str → Str
  | 0, s => s
  | fuel + 1, s =>
    match findSub s "/*".data 0 with
    | none => s
    | some i =>
      match findSub s "*/".data (i + 2) with
      | none => s
      | some j => s.take i ++ stripBlockCommentsAux fuel (s.drop (j + 2))

def stripBlockComments (code : Str) : Str := stripBlockCommentsAux (code.length + 1) code

/-- Truncate a line at its first `//` (php source, lines 304–309). -/
def stripLineComment (line : Str) : Str :=
  match findSub line "//".data 0 with
  | none => line
  | some i => line.take i

/-- `strings.Join(lines, "\n")`. -/
def joinLines : List Str → Str
  | [] => []
  | [l] => l
  | l :: ls => l ++ '\n' :: joinLines ls

/-- `removePHPComments` (php source, lines 300–311): strip block
comments, then truncate every line at its first `//`. -/
def removePHPComments (code : Str) : Str :=
  joinLines ((splitLines (stripBlockComments code)).map stripLineComment)

/-- `difference` (php source, lines 328–340): elements of `a` absent
from `b`, in order. -/
def difference (a b : List Str) : List Str :=
  a.filter fun x => !(b.contains x)

/-- The per-name relocation pattern of the issue builder: the same
declaration pattern with the literal quoted name in place of `(\w+)`
(php source, line 278). -/
def matchNamedTail (s nm : Str) (i : Nat) : Option Nat :=
  starThen isReSpace s i fun a =>
  modThen s a fun b =>
  starThen isReSpace s b fun c =>
  litThen "function".data s c fun d =>
  plusThen isReSpace s d fun e =>
  litThen nm s e fun f =>
  starThen isReSpace s f fun g =>
  litThen "(".data s g fun h =>
  some h

def matchNamedAt (s nm : Str) (i : Nat) : Option Nat :=
  (if atLineStart s i then matchNamedTail s nm i else none).orElse fun _ =>
  (plusThen (fun c => isReSpace c || c = '/') s i fun a => matchNamedTail s nm a).orElse fun _ =>
  plusThen (fun c => c = '*') s i fun a => matchNamedTail s nm a

def findNamedFrom (s nm : Str) : Nat → Nat → Option Nat
  | 0, _ => none
  | fuel + 1, pos =>
    if pos > s.length then none
    else
      match matchNamedAt s nm pos with
      | some _ => some pos
      | none => findNamedFrom s nm fuel (pos + 1)

/-- Line reported for a commented function: 1-based line of the first
declaration-shaped occurrence, 0 when unlocatable (php source, lines
276–284). -/
def commentedFuncLine (content nm : Str) : Nat :=
  match findNamedFrom content nm (content.length + 1) 0 with
  | none => 0
  | some st => countNewlines (content.take st) + 1

structure CommentedFunctionsFinding where
  allFunctions : List Str
  commentedList : List Str
  issues : List Issue
deriving Repr

/-- `CommentedFunctionsRule.Apply` (php source, lines 264–298): the
commented set is the difference between the raw inventory and the
inventory of the comment-stripped copy; absent when it is empty, else
one major issue per commented function. -/
def commentedFunctionsApply (content : Str) : Option CommentedFunctionsFinding :=
  let cleanCode := removePHPComments content
  let allFunctions := findPHPFunctions content
  let activeFunctions := findPHPFunctions cleanCode
  let commentedFunctions := difference allFunctions activeFunctions
  if commentedFunctions.length = 0 then none
  else
    some ⟨allFunctions, commentedFunctions,
      commentedFunctions.map fun nm => ⟨commentedFuncLine content nm, Severity.major⟩⟩

/-- The commented set the analyzer reports for a file (empty on absent). -/
def phpCommentedList (content : Str) : List Str :=
  match commentedFunctionsApply content with
  | some f => f.commentedList
  | none => []

theorem mem_difference (a b : List Str) (x : Str) :
    x ∈ difference a b ↔ x ∈ a ∧ x ∉ b := by
  unfold difference
  rw [List.mem_filter]
  simp

/-- A declaration that appears only inside a comment. -/
def phpCommentedOnlyExample : Str := "<?php\n// function foo() \x7b\n".data

/-- The same name also has an uncommented declaration. -/
def phpAlsoActiveExample : Str := "<?php\n// function foo() \x7b\nfunction foo() \x7b\x7d\n".data

/-- C3: the commented-function set reported by the rule is exactly the
set difference between the raw function inventory and the inventory of
the comment-stripped copy; a name declared only inside a comment is in
the set, and a name that also has an uncommented declaration is not. -/
theorem commented_set_is_difference :
    (∀ (content nm : Str),
      nm ∈ phpCommentedList content ↔
        nm ∈ findPHPFunctions content ∧
          nm ∉ findPHPFunctions (removePHPComments content)) ∧
    "foo".data ∈ phpCommentedList phpCommentedOnlyExample ∧
    "foo".data ∉ phpCommentedList phpAlsoActiveExample := by
  refine ⟨?_, by decide, by decide⟩
  intro content nm
  unfold phpCommentedList commentedFunctionsApply
  by_cases hd : (difference (findPHPFunctions content)
      (findPHPFunctions (removePHPComments content))).length = 0
  · rw [if_pos hd]
    have hnil := List.length_eq_zero.mp hd
    constructor
    · intro h
      cases h
    · rintro ⟨h1, h2⟩
      have := (mem_difference _ _ nm).mpr ⟨h1, h2⟩
      rw [hnil] at this
      cases this
  · rw [if_neg hd]
    exact mem_difference _ _ nm

/-! ## PHP analyzer orchestration and its threshold gate (`PHPAnalyzer.Run`) -/

/-- `models.PHPFileAnalysis` (the fields `Run` and the claims consult).
The float64 `CommentRatio` is modelled exactly over `ℚ`. -/
structure PHPFileAnalysis where
  totalFunctions : Nat
  commentedFunctions : Nat
  functionList : List Str
  commentedList : List Str
  commentRatio : Rat
  totalBytes : Nat
  commentedBytes : Nat
  issues : List Issue
  catchMissing : Nat
  catchMisplaced : Nat
deriving DecidableEq

/-- The catch rule is applied only to paths containing `app/`
(php source, lines 151–164). -/
def phpCatchFinding (path : Str) (clauses : List CatchClause) :
    Option LaravelCatchBlockFinding :=
  if containsSub path "app/".data then laravelCatchApply clauses else none

/-- `PHPAnalyzer.analyzeFile` (php source, lines 111–183), the external
PHP parser abstracted as the ordered list of catch clauses of the file:
the commented-functions rule always runs; the catch rule runs only for
paths containing `app/`; `nil` only when both rules found nothing. -/
def phpAnalyzeFile (path content : Str) (clauses : List CatchClause) :
    Option PHPFileAnalysis :=
  let cf := commentedFunctionsApply content
  let analysis : Option PHPFileAnalysis :=
    match cf with
    | some result =>
      some ⟨result.allFunctions.length, result.commentedList.length,
            result.allFunctions, result.commentedList,
            (if result.allFunctions.length > 0 then
              (result.commentedList.length : Rat) / (result.allFunctions.length : Rat) * 100
             else 0),
            content.length, result.commentedList.length * 20, [], 0, 0⟩
    | none => none
  let cfIssues := match cf with | some r => r.issues | none => []
  let catchFinding := phpCatchFinding path clauses
  let catchIssues := match catchFinding with | some f => f.issues | none => []
  let catchMissing := match catchFinding with | some f => f.missingReport | none => 0
  let catchMisplaced := match catchFinding with | some f => f.misplacedReport | none => 0
  let allIssues := cfIssues ++ catchIssues
  match analysis with
  | none =>
    if allIssues.length = 0 then none
    else some ⟨0, 0, [], [], 0, content.length, 0, allIssues, catchMissing, catchMisplaced⟩
  | some a =>
    some ⟨a.totalFunctions, a.commentedFunctions, a.functionList, a.commentedList,
          a.commentRatio, a.totalBytes, a.commentedBytes, allIssues,
          catchMissing, catchMisplaced⟩

/-- The configuration fields the PHP `Run` gate consults. -/
structure PHPGateConfig where
  minValue : Int
  minRatio : Rat

/-- The per-file retention decision of `PHPAnalyzer.Run` (php source,
lines 59–75): skip when below the count threshold with no issues, or
below the configured ratio floor with no issues. -/
def phpFileRetained (cfg : PHPGateConfig) (path content : Str)
    (clauses : List CatchClause) : Bool :=
  match phpAnalyzeFile path content clauses with
  | none => false
  | some a =>
    if (a.commentedFunctions : Int) < cfg.minValue ∧ a.issues.length = 0 then false
    else if cfg.minRatio > 0 ∧ a.commentRatio < cfg.minRatio ∧ a.issues.length = 0 then false
    else true

theorem commentedFunctionsApply_issues (content : Str) (r : CommentedFunctionsFinding)
    (h : commentedFunctionsApply content = some r) : r.issues ≠ [] := by
  unfold commentedFunctionsApply at h
  by_cases hd : (difference (findPHPFunctions content)
      (findPHPFunctions (removePHPComments content))).length = 0
  · rw [if_pos hd] at h
    cases h
  · rw [if_neg hd] at h
    cases h
    simp only [ne_eq, List.map_eq_nil_iff]
    intro he
    rw [he] at hd
    exact hd rfl

/-- C6 (code bug): a file analysis always carries at least one issue —
the commented-functions rule emits one issue per commented function and
`analyzeFile` never returns an analysis without issues — so the
`len(analysis.Issues) == 0` escape of the `Run` gate never fires and the
count/ratio thresholds are dead: a file with one commented function and
no catch findings is retained even under `min = 5`. -/
theorem php_threshold_gate_dead :
    (∀ (path content : Str) (clauses : List CatchClause) (a : PHPFileAnalysis),
      phpAnalyzeFile path content clauses = some a → a.issues ≠ []) ∧
    phpFileRetained ⟨5, 0⟩ "src/x.php".data phpCommentedOnlyExample [] = true ∧
    (phpAnalyzeFile "src/x.php".data phpCommentedOnlyExample []).map
      PHPFileAnalysis.commentedFunctions = some 1 := by
  refine ⟨?_, by decide, by decide⟩
  intro path content clauses a h
  unfold phpAnalyzeFile at h
  cases hcf : commentedFunctionsApply content with
  | some r =>
    rw [hcf] at h
    simp only [Option.some.injEq] at h
    have hne : r.issues ≠ [] := commentedFunctionsApply_issues content r hcf
    rw [← h]
    simp only [ne_eq, List.append_eq_nil]
    intro ⟨h1, _⟩
    exact hne h1
  | none =>
    rw [hcf] at h
    simp only [] at h
    cases hct : phpCatchFinding path clauses with
    | none =>
      rw [hct] at h
      simp only [List.nil_append, List.length_nil, if_pos rfl, ite_true] at h
      cases h
    | some f =>
      rw [hct] at h
      simp only [List.nil_append] at h
      by_cases hlen : f.issues.length = 0
      · rw [if_pos hlen] at h
        cases h
      · rw [if_neg hlen] at h
        simp only [Option.some.injEq] at h
        rw [← h]
        simp only [ne_eq]
        intro he
        rw [he] at hlen
        exact hlen rfl

/-- Witness for `php_threshold_gate_dead` at a file whose only findings
come from the catch rule (path under `app/`, one silent catch clause). -/
theorem php_threshold_gate_dead_witness :
    PHPFileAnalysis.issues
      ⟨0, 0, [], [], 0, 6, 0, [⟨8, Severity.critical⟩], 1, 0⟩ ≠ [] :=
  php_threshold_gate_dead.1 "app/x.php".data "<?php\n".data [⟨[.other], some 8⟩]
    ⟨0, 0, [], [], 0, 6, 0, [⟨8, Severity.critical⟩], 1, 0⟩ (by decide)

/-! ## The analyzers' ranking: Go's `sort.Slice` (claim C1)

All four `Run` methods rank their retained results with `sort.Slice`
(never `sort.SliceStable`).  `sort.Slice` is Go's pattern-defeating
quicksort over a `lessSwap` pair (`sort/slice.go` and
`sort/zsortfunc.go`, unchanged from Go 1.19 through the Go 1.24 toolchain
pinned by the repository's Dockerfile).  The definitions below port that
algorithm: the slice being sorted is the state, `data.Less i j`
evaluates the closure `less(slice[i], slice[j])` on the current state,
and every Go loop carries explicit fuel (always ample for the inputs
evaluated here, and consumed only by iterations the Go loops perform). -/

section GoSortSlice

variable {α : Type} [Inhabited α]

def dataLess (less : α → α → Bool) (l : List α) (i j : Nat) : Bool :=
  less (l.getD i default) (l.getD j default)

def dataSwap (l : List α) (i j : Nat) : List α :=
  (l.set i (l.getD j default)).set j (l.getD i default)

/-- Inner loop of `insertionSort_func`. -/
def insertionInner (less : α → α → Bool) : Nat → List α → Nat → Nat → List α
  | 0, l, _, _ => l
  | fuel + 1, l, a, j =>
    if j > a && dataLess less l j (j - 1) then
      insertionInner less fuel (dataSwap l j (j - 1)) a (j - 1)
    else l

/-- `insertionSort_func`. -/
def insertionLoop (less : α → α → Bool) : Nat → List α → Nat → Nat → Nat → List α
  | 0, l, _, _, _ => l
  | fuel + 1, l, a, b, i =>
    if i < b then
      insertionLoop less fuel (insertionInner less (i + 1) l a i) a b (i + 1)
    else l

def goInsertionSort (less : α → α → Bool) (l : List α) (a b : Nat) : List α :=
  insertionLoop less (b + 1) l a b (a + 1)

/-- `siftDown_func`. -/
def siftDown (less : α → α → Bool) : Nat → List α → Nat → Nat → Nat → List α
  | 0, l, _, _, _ => l
  | fuel + 1, l, root, hi, first =>
    let child0 := 2 * root + 1
    if child0 ≥ hi then l
    else
      let child :=
        if child0 + 1 < hi && dataLess less l (first + child0) (first + child0 + 1)
        then child0 + 1 else child0
      if !dataLess less l (first + root) (first + child) then l
      else siftDown less fuel (dataSwap l (first + root) (first + child)) child hi first

/-- First loop of `heapSort_func` (build), `i` descending to 0. -/
def heapBuild (less : α → α → Bool) : Nat → List α → Nat → Nat → Nat → List α
  | 0, l, _, _, _ => l
  | fuel + 1, l, i, hi, first =>
    let l := siftDown less (hi + 1) l i hi first
    if i = 0 then l else heapBuild less fuel l (i - 1) hi first

/-- Second loop of `heapSort_func` (pop), `i` descending to 0. -/
def heapExtract (less : α → α → Bool) : Nat → List α → Nat → Nat → List α
  | 0, l, _, _ => l
  | fuel + 1, l, i, first =>
    let l := dataSwap l first (first + i)
    let l := siftDown less (i + 1) l 0 i first
    if i = 0 then l else heapExtract less fuel l (i - 1) first

def goHeapSort (less : α → α → Bool) (l : List α) (a b : Nat) : List α :=
  let first := a
  let hi := b - a
  if hi ≥ 1 then heapExtract less hi (heapBuild less hi l ((hi - 1) / 2) hi first) (hi - 1) first
  else l

/-- `for i <= j && data.Less(i, a) { i++ }`. -/
def scanUp (less : α → α → Bool) : Nat → List α → Nat → Nat → Nat → Nat
  | 0, _, _, i, _ => i
  | fuel + 1, l, a, i, j =>
    if i ≤ j && dataLess less l i a then scanUp less fuel l a (i + 1) j else i

/-- `for i <= j && !data.Less(j, a) { j-- }`. -/
def scanDown (less : α → α → Bool) : Nat → List α → Nat → Nat → Nat → Nat
  | 0, _, _, _, j => j
  | fuel + 1, l, a, i, j =>
    if i ≤ j && !dataLess less l j a then scanDown less fuel l a i (j - 1) else j

/-- The `for {}` loop of `partition_func`. -/
def partitionLoop (less : α → α → Bool) : Nat → List α → Nat → Nat → Nat → List α × Nat
  | 0, l, _, _, j => (l, j)
  | fuel + 1, l, a, i, j =>
    let i := scanUp less (j + 2) l a i j
    let j := scanDown less (j + 2) l a i j
    if i > j then (l, j)
    else partitionLoop less fuel (dataSwap l i j) a (i + 1) (j - 1)

/-- `partition_func`: final state, new pivot index, `alreadyPartitioned`. -/
def goPartition (less : α → α → Bool) (l : List α) (a b pivot : Nat) :
    List α × Nat × Bool :=
  let l := dataSwap l a pivot
  let i := a + 1
  let j := b - 1
  let i := scanUp less (j + 2) l a i j
  let j := scanDown less (j + 2) l a i j
  if i > j then (dataSwap l j a, j, true)
  else
    let l := dataSwap l i j
    let r := partitionLoop less (b + 2) l a (i + 1) (j - 1)
    (dataSwap r.1 r.2 a, r.2, false)

/-- `for i <= j && !data.Less(a, i) { i++ }` of `partitionEqual_func`. -/
def scanUpEq (less : α → α → Bool) : Nat → List α → Nat → Nat → Nat → Nat
  | 0, _, _, i, _ => i
  | fuel + 1, l, a, i, j =>
    if i ≤ j && !dataLess less l a i then scanUpEq less fuel l a (i + 1) j else i

/-- `for i <= j && data.Less(a, j) { j-- }` of `partitionEqual_func`. -/
def scanDownEq (less : α → α → Bool) : Nat → List α → Nat → Nat → Nat → Nat
  | 0, _, _, _, j => j
  | fuel + 1, l, a, i, j =>
    if i ≤ j && dataLess less l a j then scanDownEq less fuel l a i (j - 1) else j

def partitionEqLoop (less : α → α → Bool) : Nat → List α → Nat → Nat → Nat → List α × Nat
  | 0, l, _, i, _ => (l, i)
  | fuel + 1, l, a, i, j =>
    let i := scanUpEq less (j + 2) l a i j
    let j := scanDownEq less (j + 2) l a i j
    if i > j then (l, i)
    else partitionEqLoop less fuel (dataSwap l i j) a (i + 1) (j - 1)

/-- `partitionEqual_func`: final state and first index past the
pivot-equal prefix. -/
def goPartitionEqual (less : α → α → Bool) (l : List α) (a b pivot : Nat) :
    List α × Nat :=
  let l := dataSwap l a pivot
  partitionEqLoop less (b + 2) l a (a + 1) (b - 1)

/-- `for i < b && !data.Less(i, i-1) { i++ }`. -/
def advanceSorted (less : α → α → Bool) : Nat → List α → Nat → Nat → Nat
  | 0, _, i, _ => i
  | fuel + 1, l, i, b =>
    if i < b && !dataLess less l i (i - 1) then advanceSorted less fuel l (i + 1) b else i

/-- Left shift loop of `partialInsertionSort_func`. -/
def shiftLeft (less : α → α → Bool) : Nat → List α → Nat → List α
  | 0, l, _ => l
  | fuel + 1, l, j =>
    if j ≥ 1 then
      if !dataLess less l j (j - 1) then l
      else shiftLeft less fuel (dataSwap l j (j - 1)) (j - 1)
    else l

/-- Right shift loop of `partialInsertionSort_func`. -/
def shiftRight (less : α → α → Bool) : Nat → List α → Nat → Nat → List α
  | 0, l, _, _ => l
  | fuel + 1, l, j, b =>
    if j < b then
      if !dataLess less l j (j - 1) then l
      else shiftRight less fuel (dataSwap l j (j - 1)) (j + 1) b
    else l

/-- `partialInsertionSort_func`: at most `maxSteps = 5` outer steps,
bail out below `shortestShifting = 50` elements. -/
def partialInsertionLoop (less : α → α → Bool) :
    Nat → List α → Nat → Nat → Nat → List α × Bool
  | 0, l, _, _, _ => (l, false)
  | steps + 1, l, a, b, i =>
    let i := advanceSorted less (b + 1) l i b
    if i = b then (l, true)
    else if b - a < 50 then (l, false)
    else
      let l := dataSwap l i (i - 1)
      let l := if i - a ≥ 2 then shiftLeft less i l (i - 1) else l
      let l := if b - i ≥ 2 then shiftRight less (b + 1) l (i + 1) b else l
      partialInsertionLoop less steps l a b i

def goPartialInsertionSort (less : α → α → Bool) (l : List α) (a b : Nat) :
    List α × Bool :=
  partialInsertionLoop less 5 l a b (a + 1)

/-- `bits.Len`. -/
def goBitsLen (n : Nat) : Nat := if n = 0 then 0 else Nat.log2 n + 1

/-- `nextPowerOfTwo`. -/
def nextPowerOfTwo (length : Nat) : Nat := 2 ^ goBitsLen length

/-- `xorshift.Next` on a 64-bit state. -/
def xorshiftNext (r : Nat) : Nat :=
  let m := 2 ^ 64
  let r := (Nat.xor r ((r * 2 ^ 13) % m)) % m
  let r := Nat.xor r (r / 2 ^ 7)
  (Nat.xor r ((r * 2 ^ 17) % m)) % m

/-- `breakPatterns_func`: three pseudo-random swaps around the middle,
seeded with the range length. -/
def goBreakPatterns (l : List α) (a b : Nat) : List α :=
  let length := b - a
  if length ≥ 8 then
    let modulus := nextPowerOfTwo length
    let idx := a + (length / 4) * 2 - 1
    let r0 := xorshiftNext length
    let o0 := let o := Nat.land r0 (modulus - 1); if o ≥ length then o - length else o
    let l := dataSwap l (idx - 1 + 0) (a + o0)
    let r1 := xorshiftNext r0
    let o1 := let o := Nat.land r1 (modulus - 1); if o ≥ length then o - length else o
    let l := dataSwap l (idx - 1 + 1) (a + o1)
    let r2 := xorshiftNext r1
    let o2 := let o := Nat.land r2 (modulus - 1); if o ≥ length then o - length else o
    dataSwap l (idx - 1 + 2) (a + o2)
  else l

inductive SortedHint where
  | unknown
  | increasing
  | decreasing
deriving DecidableEq, Repr

/-- `order2_func`: orders two indices, counting swaps. -/
def order2 (less : α → α → Bool) (l : List α) (a b swaps : Nat) : Nat × Nat × Nat :=
  if dataLess less l b a then (b, a, swaps + 1) else (a, b, swaps)

/-- `median_func`: index of the median of three, counting swaps. -/
def median (less : α → α → Bool) (l : List α) (a b c swaps : Nat) : Nat × Nat :=
  let r1 := order2 less l a b swaps
  let r2 := order2 less l r1.2.1 c r1.2.2
  let r3 := order2 less l r1.1 r2.1 r2.2.2
  (r3.2.1, r3.2.2)

/-- `medianAdjacent_func`. -/
def medianAdjacent (less : α → α → Bool) (l : List α) (a swaps : Nat) : Nat × Nat :=
  median less l (a - 1) a (a + 1) swaps

/-- `choosePivot_func`: median (of ninthers for ≥ 50 elements) of the
quartile positions, with a sortedness hint from the swap count. -/
def goChoosePivot (less : α → α → Bool) (l : List α) (a b : Nat) : Nat × SortedHint :=
  let len := b - a
  let i := a + len / 4 * 1
  let j := a + len / 4 * 2
  let k := a + len / 4 * 3
  let r :=
    if len ≥ 8 then
      if len ≥ 50 then
        let ri := medianAdjacent less l i 0
        let rj := medianAdjacent less l j ri.2
        let rk := medianAdjacent less l k rj.2
        median less l ri.1 rj.1 rk.1 rk.2
      else median less l i j k 0
    else (j, 0)
  if r.2 = 0 then (r.1, .increasing)
  else if r.2 = 12 then (r.1, .decreasing)
  else (r.1, .unknown)

/-- `reverseRange_func`. -/
def reverseRangeAux : Nat → List α → Nat → Nat → List α
  | 0, l, _, _ => l
  | fuel + 1, l, i, j =>
    if i < j then reverseRangeAux fuel (dataSwap l i j) (i + 1) (j - 1) else l

def goReverseRange (l : List α) (a b : Nat) : List α := reverseRangeAux (b + 1) l a (b - 1)

/-- `pdqsort_func`: one fuel unit per loop iteration or recursive call.
`wasBalanced`/`wasPartitioned` start `true` on every fresh invocation,
`continue` keeps them, and the recursive call on the smaller side starts
fresh while the loop continues on the larger side. -/
def pdqLoop (less : α → α → Bool) :
    Nat → List α → Nat → Nat → Nat → Bool → Bool → List α
  | 0, l, _, _, _, _, _ => l
  | fuel + 1, l, a, b, limit, wasBalanced, wasPartitioned =>
    let length := b - a
    if length ≤ 12 then goInsertionSort less l a b
    else if limit = 0 then goHeapSort less l a b
    else
      let l := if !wasBalanced then goBreakPatterns l a b else l
      let limit := if !wasBalanced then limit - 1 else limit
      let pv := goChoosePivot less l a b
      let l := if pv.2 = .decreasing then goReverseRange l a b else l
      let pivot := if pv.2 = .decreasing then (b - 1) - (pv.1 - a) else pv.1
      let hint := if pv.2 = .decreasing then SortedHint.increasing else pv.2
      let pr :=
        if wasBalanced && wasPartitioned && hint = .increasing
        then goPartialInsertionSort less l a b
        else (l, false)
      if pr.2 then pr.1
      else
        let l := pr.1
        if a > 0 && !dataLess less l (a - 1) pivot then
          let pe := goPartitionEqual less l a b pivot
          pdqLoop less fuel pe.1 pe.2 b limit wasBalanced wasPartitioned
        else
          let pt := goPartition less l a b pivot
          let mid := pt.2.1
          let leftLen := mid - a
          let rightLen := b - mid
          let balanceThreshold := length / 8
          let newBalanced := decide (min leftLen rightLen ≥ balanceThreshold)
          let newPartitioned := pt.2.2
          if leftLen < rightLen then
            pdqLoop less fuel (pdqLoop less fuel pt.1 a mid limit true true)
              (mid + 1) b limit newBalanced newPartitioned
          else
            pdqLoop less fuel (pdqLoop less fuel pt.1 (mid + 1) b limit true true)
              a mid limit newBalanced newPartitioned

/-- `sort.Slice`: pdqsort over the whole slice with
`limit = bits.Len(uint(n))`. -/
def goSortSlice (less : α → α → Bool) (l : List α) : List α :=
  pdqLoop less (l.length * l.length + 64) l 0 l.length (goBitsLen l.length) true true

end GoSortSlice

/-- The fields of `models.JSFileAnalysis` the JS sort consults, plus
`walkId`, a modelling tag recording the file's position in the original
walk order (never read by the sort). The float64 ratio is modelled over
`ℚ` (exact for the values used below). -/
structure JSResult where
  commentRatio : Rat
  commentedBytes : Nat
  walkId : Nat
deriving DecidableEq, Repr, Inhabited

/-- The ranking of `JSAnalyzer.Run` (js source, lines 364–373):
`sort.Slice` by ratio descending when `sort = "ratio"`, otherwise by
commented bytes descending. -/
def jsSortResults (sortBy : Str) (results : List JSResult) : List JSResult :=
  if sortBy = "ratio".data then
    goSortSlice (fun x y => x.commentRatio > y.commentRatio) results
  else
    goSortSlice (fun x y => x.commentedBytes > y.commentedBytes) results

/-- Truncation to the top N (js source, lines 375–378). -/
def jsTruncate (topN : Nat) (results : List JSResult) : List JSResult :=
  if results.length > topN then results.take topN else results

/-- Every pair of tied results appears in walk order (the claim's
stable-sort tie-breaking property). -/
def tiesInWalkOrder : List JSResult → Bool
  | [] => true
  | x :: xs =>
    xs.all (fun y => !(x.commentRatio == y.commentRatio) || x.walkId < y.walkId) &&
    tiesInWalkOrder xs

/-- Thirteen walked files: the first with ratio 0, twelve tied at ratio
1 — more than `maxInsertion = 12` elements, so `sort.Slice` partitions
before its insertion sort. -/
def c1Input : List JSResult :=
  (List.range 13).map fun i => ⟨if i = 0 then 0 else 1, 100, i⟩

/-- C1 (code bug): truncation does keep exactly the sorted prefix, and
the input's ties start in walk order, but `sort.Slice`'s quicksort
(the first partition's `Swap(a, pivot)` moves the middle element to the
front) returns the twelve tied files as 6, 1, 2, 3, 4, 5, 7, …, 12 —
not in walk order, so the spec's required stable tie-breaking fails. -/
theorem sortSlice_not_stable :
    (∀ (n : Nat) (l : List JSResult), jsTruncate n l = l.take n) ∧
    tiesInWalkOrder c1Input = true ∧
    (jsSortResults "ratio".data c1Input).map JSResult.walkId =
      [6, 1, 2, 3, 4, 5, 7, 8, 9, 10, 11, 12, 0] ∧
    tiesInWalkOrder (jsSortResults "ratio".data c1Input) = false := by
  refine ⟨?_, by decide, by decide, by decide⟩
  intro n l
  unfold jsTruncate
  by_cases h : l.length > n
  · rw [if_pos h]
  · rw [if_neg h, List.take_of_length_le (by omega)]

end CodeAnalyzer
